import Mathlib

/-!
A shallow embedding of the CHIP-8 virtual machine core from `src/lib.rs`
(`Chip8::new`, `Chip8::load_rom`, `Chip8::fetch`, `Chip8::tick`,
`Chip8::execute`), together with theorems checking the natural-language
specification against it.

Conventions of the embedding:
* Machine words are `Nat` carrying the byte / 16-bit ranges of the source
  (`u8` values are `< 256`, `u16` values are `< 65536`); operations that the
  Rust source performs with explicit wrapping are embedded with explicit
  `% 256` / `% 65536`.
* Rust's fixed-size arrays are embedded as total functions `Nat → _`; an
  index expression that could fault in the source (out-of-bounds indexing,
  checked integer overflow/underflow in the arithmetic of the default
  debug profile) is embedded as an explicit `Except.error`.
* Fallible operations return `Except Err Chip8`; a Rust panic aborts the
  mutation, which `Except.error` models (no post-state is produced).
-/

/-- Failure modes of the embedded machine: each constructor corresponds to a
panic or `Err` return in the Rust source. -/
inductive Err where
  | outOfCapacity
  | unimplemented (op : Nat)
  | subUnderflow
  | oobRead (addr : Nat)
  | oobWrite (addr : Nat)
  | stackUnderflow
  | oobKey (k : Nat)
  | pcUnderflow
  | pcOverflow
deriving DecidableEq, Repr

/-- Point update of an array embedded as a function, mirroring `arr[i] = v`. -/
def setIdx {α : Type} (f : Nat → α) (i : Nat) (v : α) : Nat → α :=
  fun j => if j = i then v else f j

/-- The machine state, field for field the Rust `struct Chip8`. -/
structure Chip8 where
  registers : Nat → Nat
  memory : Nat → Nat
  index : Nat
  pc : Nat
  stack : Nat → Nat
  sp : Nat
  dtimer : Nat
  stimer : Nat
  keypad : Nat → Bool
  video : Nat → Bool
  opcode : Nat

/-- The constant `FONTSET` array (80 glyph bytes). -/
def FONTSET : List Nat :=
  [0xF0, 0x90, 0x90, 0x90, 0xF0,
   0x20, 0x60, 0x20, 0x20, 0x70,
   0xF0, 0x10, 0xF0, 0x80, 0xF0,
   0xF0, 0x10, 0xF0, 0x10, 0xF0,
   0x90, 0x90, 0xF0, 0x10, 0x10,
   0xF0, 0x80, 0xF0, 0x10, 0xF0,
   0xF0, 0x80, 0xF0, 0x90, 0xF0,
   0xF0, 0x10, 0x20, 0x40, 0x40,
   0xF0, 0x90, 0xF0, 0x90, 0xF0,
   0xF0, 0x90, 0xF0, 0x10, 0xF0,
   0xF0, 0x90, 0xF0, 0x90, 0x90,
   0xE0, 0x90, 0xE0, 0x90, 0xE0,
   0xF0, 0x80, 0x80, 0x80, 0xF0,
   0xE0, 0x90, 0x90, 0x90, 0xE0,
   0xF0, 0x80, 0xF0, 0x80, 0xF0,
   0xF0, 0x80, 0xF0, 0x80, 0x80]

/-- Sequential byte copy into memory, mirroring `copy_from_slice` of a byte
slice at a start offset (`new_chip8.memory[a..a+len].copy_from_slice(..)`). -/
def copyList (dst : Nat → Nat) : Nat → List Nat → (Nat → Nat)
  | _, [] => dst
  | start, b :: bs => copyList (setIdx dst start b) (start + 1) bs

/-- `Chip8::new`: zeroed state with `pc = 0x200` and the fontset copied to
`0x50..0xA0`. -/
def Chip8.new : Chip8 :=
  { pc := 0x200
    memory := copyList (fun _ => 0) 0x50 FONTSET
    video := fun _ => false
    registers := fun _ => 0
    index := 0
    sp := 0
    stack := fun _ => 0
    keypad := fun _ => false
    dtimer := 0
    stimer := 0
    opcode := 0 }

/-- The in-memory part of `Chip8::load_rom` (the `fs::read` of the file into
the byte vector `rom_data` is host I/O outside the core): fails when
`0x200 + rom.length` exceeds the 4096-byte memory, otherwise copies the bytes
to `0x200..`. The returned pair is (error report, post-state); on failure the
Rust method returns before mutating `self`, so the post-state is the input
state. -/
def Chip8.loadRom (s : Chip8) (rom : List Nat) : Option Err × Chip8 :=
  if 4096 < 0x200 + rom.length then (some .outOfCapacity, s)
  else (none, { s with memory := copyList s.memory 0x200 rom })

/-- `Chip8::fetch`: big-endian combination of the two bytes at `pc`, then
`pc += 2`.  Either byte access out of the 4096-byte memory is a panic in the
source, hence an error here; after the bound check `pc + 2` cannot overflow
`u16`. -/
def Chip8.fetch (s : Chip8) : Except Err (Nat × Chip8) :=
  if s.pc + 1 < 4096 then
    .ok (Nat.lor (Nat.shiftLeft (s.memory s.pc) 8) (s.memory (s.pc + 1)),
         { s with pc := s.pc + 2 })
  else .error (.oobRead s.pc)

/-- The checked `self.pc += 2` of the skip instructions (`u16` addition,
overflow is a panic in the debug profile). -/
def Chip8.skip (s : Chip8) : Except Err Chip8 :=
  if s.pc + 2 < 65536 then .ok { s with pc := s.pc + 2 } else .error .pcOverflow

/-- The `for i in 0..16 { if keypad[i] { .. break } }` search of the
`LD Vx, K` arm: first pressed key starting from `i`, with `fuel` entries
left to scan. -/
def firstKeyAux (kp : Nat → Bool) (i : Nat) : Nat → Option Nat
  | 0 => none
  | fuel + 1 => if kp i then some i else firstKeyAux kp (i + 1) fuel

/-- Lowest-indexed pressed key among keys `0..16`, as the Rust loop finds it. -/
def firstKey (kp : Nat → Bool) : Option Nat :=
  firstKeyAux kp 0 16

/-- Inner column loop of the `DRW` arm over the remaining column indices:
`if pixels & (0x80 >> x_line) != 0` toggle the framebuffer pixel at
`((x_coord + x_line) % 64, yr % 32)` (`yr = y_coord + y_line`), accumulating
the collision flag `flipped |= video[idx]`. -/
def drawCols (v : Nat → Bool) (fl : Bool) (pixels xc yr : Nat) :
    List Nat → ((Nat → Bool) × Bool)
  | [] => (v, fl)
  | c :: cs =>
    if Nat.land pixels (128 >>> c) ≠ 0 then
      let idx := (xc + c) % 64 + 64 * (yr % 32)
      drawCols (setIdx v idx (!(v idx))) (fl || v idx) pixels xc yr cs
    else drawCols v fl pixels xc yr cs

/-- Outer row loop of the `DRW` arm: reads the sprite byte
`memory[index + y_line]` (a panic, hence an error, when the address leaves
the 4096-byte memory) and runs the column loop over columns `0..8`. -/
def drawRows (v : Nat → Bool) (fl : Bool) (mem : Nat → Nat) (i xc yc : Nat) :
    List Nat → Except Err ((Nat → Bool) × Bool)
  | [] => .ok (v, fl)
  | r :: rs =>
    if i + r < 4096 then
      let p := drawCols v fl (mem (i + r)) xc (yc + r) (List.range 8)
      drawRows p.1 p.2 mem i xc yc rs
    else .error (.oobRead (i + r))

/-- `for idx in 0..=vx { memory[i + idx] = registers[idx] }` of `LD [I], Vx`. -/
def storeRegs (mem : Nat → Nat) (regs : Nat → Nat) (i : Nat) : Nat → (Nat → Nat)
  | 0 => setIdx mem i (regs 0)
  | k + 1 => setIdx (storeRegs mem regs i k) (i + (k + 1)) (regs (k + 1))

/-- `for idx in 0..=vx { registers[idx] = memory[i + idx] }` of `LD Vx, [I]`. -/
def loadRegs (regs : Nat → Nat) (mem : Nat → Nat) (i : Nat) : Nat → (Nat → Nat)
  | 0 => setIdx regs 0 (mem i)
  | k + 1 => setIdx (loadRegs regs mem i k) (k + 1) (mem (i + (k + 1)))

/-- `Chip8::execute`: dispatch on the four nibbles of the instruction word.
The nibble selectors `op / 4096 % 16`, `op / 256 % 16`, `op / 16 % 16`,
`op % 16` are the source's `(op & 0xF000) >> 12`, `(op & 0x0F00) >> 8`,
`(op & 0x00F0) >> 4`, `op & 0x000F` (the two forms agree on every `Nat`);
likewise `op % 4096` is `op & 0x0FFF` and `op % 256` is `op & 0x00FF`.
`rng` is the random byte drawn by the `RND` arm (`rand::rng().random()`).
Where the source writes a `u8`/`u16` with wrapping (`wrapping_add`,
`overflowing_add`, `overflowing_sub`, `<<= 1`) the embedding takes the
result modulo 256 resp. 65536; the unchecked `registers[vy] -
registers[vx]` of the `SUBN` arm and unchecked index arithmetic are
embedded as errors exactly where the source would fault. -/
def Chip8.execute (s : Chip8) (op rng : Nat) : Except Err Chip8 :=
  match op / 4096 % 16, op / 256 % 16, op / 16 % 16, op % 16 with
  | 0, 0, 0, 0 => .ok s
  | 0, 0, 0xE, 0 => .ok { s with video := fun _ => false }
  | 0, 0, 0xE, 0xE =>
    if s.sp = 0 then .error .stackUnderflow
    else if s.sp - 1 < 16 then
      .ok { s with sp := s.sp - 1, pc := s.stack (s.sp - 1) }
    else .error (.oobRead (s.sp - 1))
  | 1, _, _, _ => .ok { s with pc := op % 4096 }
  | 2, _, _, _ =>
    if s.sp < 16 then
      .ok { s with stack := setIdx s.stack s.sp s.pc, sp := s.sp + 1,
                   pc := op % 4096 }
    else .error (.oobWrite s.sp)
  | 3, x, _, _ =>
    if s.registers x = op % 256 then s.skip else .ok s
  | 4, x, _, _ =>
    if s.registers x ≠ op % 256 then s.skip else .ok s
  | 5, x, y, _ =>
    if s.registers x = s.registers y then s.skip else .ok s
  | 6, x, _, _ => .ok { s with registers := setIdx s.registers x (op % 256) }
  | 7, x, _, _ =>
    .ok { s with registers := setIdx s.registers x ((s.registers x + op % 256) % 256) }
  | 8, x, y, 0 => .ok { s with registers := setIdx s.registers x (s.registers y) }
  | 8, x, y, 1 =>
    .ok { s with registers := setIdx s.registers x (Nat.lor (s.registers x) (s.registers y)) }
  | 8, x, y, 2 =>
    .ok { s with registers := setIdx s.registers x (Nat.land (s.registers x) (s.registers y)) }
  | 8, x, y, 3 =>
    .ok { s with registers := setIdx s.registers x (Nat.xor (s.registers x) (s.registers y)) }
  | 8, x, y, 4 =>
    .ok { s with registers := (setIdx
      (setIdx s.registers x ((s.registers x + s.registers y) % 256)) 15
      (if 255 < s.registers x + s.registers y then 1 else 0)) }
  | 8, x, y, 5 =>
    .ok { s with registers := (setIdx
      (setIdx s.registers x ((s.registers x + 256 - s.registers y) % 256)) 15
      (if s.registers x < s.registers y then 0 else 1)) }
  | 8, x, _, 6 =>
    let r1 := setIdx s.registers 15 (Nat.land (s.registers x) 1)
    .ok { s with registers := setIdx r1 x (Nat.shiftRight (r1 x) 1) }
  | 8, x, y, 7 =>
    let r1 := setIdx s.registers 15 (if s.registers x < s.registers y then 1 else 0)
    if r1 x ≤ r1 y then .ok { s with registers := setIdx r1 x (r1 y - r1 x) }
    else .error .subUnderflow
  | 8, x, _, 0xE =>
    let r1 := setIdx s.registers 15 (Nat.shiftRight (Nat.land (s.registers x) 128) 7)
    .ok { s with registers := setIdx r1 x (Nat.shiftLeft (r1 x) 1 % 256) }
  | 9, x, y, 0 =>
    if s.registers x ≠ s.registers y then s.skip else .ok s
  | 0xA, _, _, _ => .ok { s with index := op % 4096 }
  | 0xB, _, _, _ => .ok { s with pc := s.registers 0 + op % 4096 }
  | 0xC, x, _, _ =>
    .ok { s with registers := setIdx s.registers x (Nat.land rng (op % 256)) }
  | 0xD, x, y, n =>
    match drawRows s.video false s.memory s.index (s.registers x) (s.registers y)
        (List.range n) with
    | .ok p =>
      .ok { s with video := p.1,
                   registers := (setIdx s.registers 15 (if p.2 then 1 else 0)) }
    | .error e => .error e
  | 0xE, x, 9, 0xE =>
    if s.registers x < 16 then
      (if s.keypad (s.registers x) then s.skip else .ok s)
    else .error (.oobKey (s.registers x))
  | 0xE, x, 0xA, 1 =>
    if s.registers x < 16 then
      (if !(s.keypad (s.registers x)) then s.skip else .ok s)
    else .error (.oobKey (s.registers x))
  | 0xF, x, 0, 7 => .ok { s with registers := setIdx s.registers x s.dtimer }
  | 0xF, x, 0, 0xA =>
    match firstKey s.keypad with
    | some i => .ok { s with registers := setIdx s.registers x i }
    | none => if 2 ≤ s.pc then .ok { s with pc := s.pc - 2 } else .error .pcUnderflow
  | 0xF, x, 1, 5 => .ok { s with dtimer := s.registers x }
  | 0xF, x, 1, 8 => .ok { s with stimer := s.registers x }
  | 0xF, x, 1, 0xE => .ok { s with index := (s.index + s.registers x) % 65536 }
  | 0xF, x, 2, 9 => .ok { s with index := 0x50 + 5 * s.registers x }
  | 0xF, x, 3, 3 =>
    if s.index + 2 < 4096 then
      .ok { s with memory := (setIdx
        (setIdx (setIdx s.memory s.index (s.registers x / 100))
          (s.index + 1) (s.registers x / 10 % 10)) (s.index + 2) (s.registers x % 10)) }
    else .error (.oobWrite s.index)
  | 0xF, x, 5, 5 =>
    if s.index + x < 4096 then
      .ok { s with memory := storeRegs s.memory s.registers s.index x }
    else .error (.oobWrite s.index)
  | 0xF, x, 6, 5 =>
    if s.index + x < 4096 then
      .ok { s with registers := loadRegs s.registers s.memory s.index x }
    else .error (.oobRead s.index)
  | _, _, _, _ => .error (.unimplemented op)

/-- `Chip8::tick`: one fetch-execute cycle. -/
def Chip8.tick (s : Chip8) (rng : Nat) : Except Err Chip8 :=
  match s.fetch with
  | .ok p => Chip8.execute p.2 p.1 rng
  | .error e => .error e

/-- The nibble patterns carried by some arm of the `match` in
`Chip8::execute` (note the `(5, _, _, _)` row: the source matches every
fourth nibble there, not only 0). An instruction word is dispatched to the
catch-all `unimplemented!` arm exactly when this is `false`. -/
def listedOp (op : Nat) : Bool :=
  match op / 4096 % 16, op / 256 % 16, op / 16 % 16, op % 16 with
  | 0, 0, 0, 0 => true
  | 0, 0, 0xE, 0 => true
  | 0, 0, 0xE, 0xE => true
  | 1, _, _, _ => true
  | 2, _, _, _ => true
  | 3, _, _, _ => true
  | 4, _, _, _ => true
  | 5, _, _, _ => true
  | 6, _, _, _ => true
  | 7, _, _, _ => true
  | 8, _, _, 0 => true
  | 8, _, _, 1 => true
  | 8, _, _, 2 => true
  | 8, _, _, 3 => true
  | 8, _, _, 4 => true
  | 8, _, _, 5 => true
  | 8, _, _, 6 => true
  | 8, _, _, 7 => true
  | 8, _, _, 0xE => true
  | 9, _, _, 0 => true
  | 0xA, _, _, _ => true
  | 0xB, _, _, _ => true
  | 0xC, _, _, _ => true
  | 0xD, _, _, _ => true
  | 0xE, _, 9, 0xE => true
  | 0xE, _, 0xA, 1 => true
  | 0xF, _, 0, 7 => true
  | 0xF, _, 0, 0xA => true
  | 0xF, _, 1, 5 => true
  | 0xF, _, 1, 8 => true
  | 0xF, _, 1, 0xE => true
  | 0xF, _, 2, 9 => true
  | 0xF, _, 3, 3 => true
  | 0xF, _, 5, 5 => true
  | 0xF, _, 6, 5 => true
  | _, _, _, _ => false

/-- Specification-side pixel index of sprite bit (row `r`, column `c`) drawn
at base coordinates `(xc, yc)`: x and y wrap independently, row-major
framebuffer layout. -/
def pixIdx (xc yc r c : Nat) : Nat :=
  (xc + c) % 64 + 64 * ((yc + r) % 32)

/-- Specification-side toggle predicate of the draw-sprite claim: pixel `q`
is toggled iff some set sprite bit (most-significant bit first within each
byte) maps to it. -/
def hitB (mem : Nat → Nat) (i xc yc n q : Nat) : Bool :=
  (List.range n).any fun r => (List.range 8).any fun c =>
    (mem (i + r)).testBit (7 - c) && (q == pixIdx xc yc r c)

/-- Specification-side collision predicate: some set sprite bit maps to a
pixel that is set in the pre-draw framebuffer `v`. -/
def collB (mem : Nat → Nat) (i xc yc n : Nat) (v : Nat → Bool) : Bool :=
  (List.range n).any fun r => (List.range 8).any fun c =>
    (mem (i + r)).testBit (7 - c) && v (pixIdx xc yc r c)

/-! ### Basic lemmas about the embedding's array operations -/

theorem setIdx_self {α : Type} (f : Nat → α) (i : Nat) (v : α) :
    setIdx f i v i = v := by
  simp [setIdx]

theorem setIdx_ne {α : Type} (f : Nat → α) (i j : Nat) (v : α) (h : j ≠ i) :
    setIdx f i v j = f j := by
  simp [setIdx, h]

theorem setIdx_collapse {α : Type} (f : Nat → α) (i : Nat) (a b : α) :
    setIdx (setIdx f i a) i b = setIdx f i b := by
  funext j
  by_cases h : j = i <;> simp [setIdx, h]

theorem copyList_spec (xs : List Nat) : ∀ (dst : Nat → Nat) (start a : Nat),
    copyList dst start xs a =
      if start ≤ a ∧ a < start + xs.length then xs.getD (a - start) 0 else dst a := by
  induction xs with
  | nil =>
    intro dst start a
    simp only [copyList, List.length_nil, Nat.add_zero, List.getD_nil]
    have h : ¬(start ≤ a ∧ a < start) := by omega
    rw [if_neg h]
  | cons b bs ih =>
    intro dst start a
    simp only [copyList]
    rw [ih]
    by_cases h1 : start + 1 ≤ a ∧ a < start + 1 + bs.length
    · have hc : start ≤ a ∧ a < start + (b :: bs).length := by
        simp only [List.length_cons]; omega
      have hsub : a - start = (a - (start + 1)) + 1 := by omega
      simp only [if_pos h1, if_pos hc, hsub, List.getD_cons_succ]
    · by_cases h2 : a = start
      · subst h2
        have hc : a ≤ a ∧ a < a + (b :: bs).length := by
          simp only [List.length_cons]; omega
        simp [h1, hc, setIdx]
      · have hc : ¬(start ≤ a ∧ a < start + (b :: bs).length) := by
          simp only [List.length_cons]; omega
        simp only [if_neg h1, if_neg hc]
        exact setIdx_ne dst start a b h2

/-- Combining a high byte shifted left by 8 with a low byte below 256 is the
same as positional addition. -/
theorem lor_byte (h l : Nat) (hl : l < 256) :
    Nat.lor (Nat.shiftLeft h 8) l = 256 * h + l := by
  have e1 : Nat.shiftLeft h 8 = 2 ^ 8 * h := by
    show h <<< 8 = 2 ^ 8 * h
    rw [Nat.shiftLeft_eq]; ring
  have hl2 : l < 2 ^ 8 := by simpa using hl
  have e2 : 2 ^ 8 * h + l = Nat.lor (2 ^ 8 * h) l := Nat.mul_add_lt_is_or hl2 h
  rw [e1, ← e2]
  norm_num

/-- The source's sprite-bit test `pixels & (0x80 >> c) != 0` is bit `7 - c`
of the sprite byte, for column indices below 8. -/
theorem land_bit (pixels c : Nat) (hc : c < 8) :
    (Nat.land pixels (128 >>> c) ≠ 0) ↔ pixels.testBit (7 - c) = true := by
  have e : (128 : Nat) >>> c = 2 ^ (7 - c) := by
    interval_cases c <;> rfl
  have h2 : Nat.land pixels (2 ^ (7 - c)) = (pixels.testBit (7 - c)).toNat * 2 ^ (7 - c) :=
    Nat.and_two_pow pixels (7 - c)
  rw [e, h2]
  have hp : (2 : Nat) ^ (7 - c) ≠ 0 := by positivity
  cases hb : pixels.testBit (7 - c) <;> simp [hb, hp]

theorem any_congr {l : List Nat} {p q : Nat → Bool} (h : ∀ a ∈ l, p a = q a) :
    l.any p = l.any q := by
  induction l with
  | nil => rfl
  | cons a as ih =>
    simp only [List.any_cons]
    rw [h a (by simp), ih fun b hb => h b (by simp [hb])]

/-! ### Claim C1 (reverse-subtract 0x8xy7) -/

/-- A state with V0 = 1 and V1 = 0: reverse-subtract `SUBN V0, V1`
(instruction word 0x8017) must compute V1 - V0 = 0 - 1. -/
def c1State : Chip8 :=
  { Chip8.new with registers := setIdx Chip8.new.registers 0 1 }

/-- Claim C1: the specification demands that 0x8xy7 set Vx to
(Vy - Vx) mod 256 without trapping when Vy < Vx.  The source instead
computes `self.registers[vy] - self.registers[vx]` with an unchecked `u8`
subtraction, which overflow-faults on underflow; on the state with
V0 = 1, V1 = 0 the embedded execute therefore reports the fault instead of
producing V0 = 255. -/
theorem claim_C1_bug :
    Chip8.execute c1State 0x8017 0 = .error Err.subUnderflow := by
  rfl

/-! ### Claim C3 (program loading) -/

/-- Claim C3: loading a program byte sequence of length L fails with the
capacity error exactly when 0x200 + L exceeds 4096; on failure the machine
state is returned untouched, and on success the bytes land at
memory[0x200 .. 0x200+L) with every other byte (and every other field)
unchanged. -/
theorem claim_C3 (s : Chip8) (rom : List Nat) :
    ((Chip8.loadRom s rom).1.isSome = true ↔ 4096 < 0x200 + rom.length) ∧
    (4096 < 0x200 + rom.length →
      Chip8.loadRom s rom = (some Err.outOfCapacity, s)) ∧
    (0x200 + rom.length ≤ 4096 →
      (Chip8.loadRom s rom).1 = none ∧
      (∀ j, j < rom.length →
        (Chip8.loadRom s rom).2.memory (0x200 + j) = rom.getD j 0) ∧
      (∀ a, a < 0x200 ∨ 0x200 + rom.length ≤ a →
        (Chip8.loadRom s rom).2.memory a = s.memory a) ∧
      (Chip8.loadRom s rom).2.registers = s.registers ∧
      (Chip8.loadRom s rom).2.index = s.index ∧
      (Chip8.loadRom s rom).2.pc = s.pc ∧
      (Chip8.loadRom s rom).2.stack = s.stack ∧
      (Chip8.loadRom s rom).2.sp = s.sp ∧
      (Chip8.loadRom s rom).2.dtimer = s.dtimer ∧
      (Chip8.loadRom s rom).2.stimer = s.stimer ∧
      (Chip8.loadRom s rom).2.keypad = s.keypad ∧
      (Chip8.loadRom s rom).2.video = s.video) := by
  by_cases hcap : 4096 < 0x200 + rom.length
  · exact ⟨by simp [Chip8.loadRom, hcap], fun _ => by simp [Chip8.loadRom, hcap],
      fun hle => absurd hle (by omega)⟩
  · have hle : 0x200 + rom.length ≤ 4096 := by omega
    refine ⟨by simp [Chip8.loadRom, hcap], fun hgt => absurd hgt hcap, fun _ => ?_⟩
    refine ⟨by simp [Chip8.loadRom, hcap], ?_, ?_, by simp [Chip8.loadRom, hcap],
      by simp [Chip8.loadRom, hcap], by simp [Chip8.loadRom, hcap],
      by simp [Chip8.loadRom, hcap], by simp [Chip8.loadRom, hcap],
      by simp [Chip8.loadRom, hcap], by simp [Chip8.loadRom, hcap],
      by simp [Chip8.loadRom, hcap], by simp [Chip8.loadRom, hcap]⟩
    · intro j hj
      simp only [Chip8.loadRom, if_neg hcap]
      rw [copyList_spec]
      have hc : 0x200 ≤ 0x200 + j ∧ 0x200 + j < 0x200 + rom.length := by omega
      have hsub : 0x200 + j - 0x200 = j := by omega
      simp [hc, hsub]
    · intro a ha
      simp only [Chip8.loadRom, if_neg hcap]
      rw [copyList_spec]
      have hc : ¬(0x200 ≤ a ∧ a < 0x200 + rom.length) := by omega
      simp [hc]

/-- Witness for C3: a three-byte program loads successfully with its first
byte at 0x200, and a 3585-byte program is rejected. -/
theorem claim_C3_witness :
    (Chip8.loadRom Chip8.new [1, 2, 3]).1 = none ∧
    (Chip8.loadRom Chip8.new [1, 2, 3]).2.memory (0x200 + 0) = 1 ∧
    (Chip8.loadRom Chip8.new (List.replicate 3585 7)).1.isSome = true := by
  have h1 := claim_C3 Chip8.new [1, 2, 3]
  have h2 := claim_C3 Chip8.new (List.replicate 3585 7)
  have hle : (0x200 : Nat) + [1, 2, 3].length ≤ 4096 := by decide
  refine ⟨(h1.2.2 hle).1, ?_, ?_⟩
  · have := (h1.2.2 hle).2.1 0 (by decide)
    simpa using this
  · exact h2.1.mpr (by rw [List.length_replicate]; omega)

/-! ### Claim C4 (creation state) -/

/-- Counterexample for C4: the claim lists program_counter among the fields
that are zero after creation, but creation sets it to the program start
address 0x200. -/
theorem claim_C4_counterexample : Chip8.new.pc ≠ 0 := by
  decide

/-- Claim C4 as amended: creation zeroes every field except the glyph
region — memory holds the fontset bytes at 0x50..0xA0 and zero everywhere
else — and the program counter, which starts at 0x200 (not 0). -/
theorem claim_C4_amended :
    Chip8.new.pc = 0x200 ∧
    (∀ a, 0x50 ≤ a → a < 0xA0 → Chip8.new.memory a = FONTSET.getD (a - 0x50) 0) ∧
    (∀ a, a < 0x50 → Chip8.new.memory a = 0) ∧
    (∀ a, 0xA0 ≤ a → Chip8.new.memory a = 0) ∧
    (∀ i, Chip8.new.registers i = 0) ∧
    Chip8.new.index = 0 ∧
    (∀ i, Chip8.new.stack i = 0) ∧
    Chip8.new.sp = 0 ∧
    Chip8.new.dtimer = 0 ∧
    Chip8.new.stimer = 0 ∧
    (∀ k, Chip8.new.keypad k = false) ∧
    (∀ q, Chip8.new.video q = false) := by
  have hlen : FONTSET.length = 80 := rfl
  refine ⟨rfl, ?_, ?_, ?_, fun _ => rfl, rfl, fun _ => rfl, rfl, rfl, rfl,
    fun _ => rfl, fun _ => rfl⟩
  · intro a h1 h2
    show copyList (fun _ => 0) 0x50 FONTSET a = _
    rw [copyList_spec]
    have hc : 0x50 ≤ a ∧ a < 0x50 + FONTSET.length := by omega
    simp [hc]
  · intro a h1
    show copyList (fun _ => 0) 0x50 FONTSET a = 0
    rw [copyList_spec]
    have hc : ¬(0x50 ≤ a ∧ a < 0x50 + FONTSET.length) := by omega
    simp [hc]
  · intro a h1
    show copyList (fun _ => 0) 0x50 FONTSET a = 0
    rw [copyList_spec]
    have hc : ¬(0x50 ≤ a ∧ a < 0x50 + FONTSET.length) := by omega
    simp [hc]

/-- Witness for C4 (amended): the first and last glyph bytes, a byte below
and a byte above the glyph region, at concrete addresses. -/
theorem claim_C4_amended_witness :
    Chip8.new.memory 0x50 = 0xF0 ∧ Chip8.new.memory 0x9F = 0x80 ∧
    Chip8.new.memory 0x4F = 0 ∧ Chip8.new.memory 0xA0 = 0 ∧
    Chip8.new.pc = 0x200 := by
  have h := claim_C4_amended
  refine ⟨?_, ?_, h.2.2.1 0x4F (by decide), h.2.2.2.1 0xA0 (by decide), h.1⟩
  · have := h.2.1 0x50 (by decide) (by decide)
    simpa using this
  · have := h.2.1 0x9F (by decide) (by decide)
    simpa using this

/-! ### Claim C6 (add with carry 0x8xy4) -/

/-- Claim C6: 0x8xy4 writes (Vx + Vy) mod 256 to Vx and then writes the
carry flag — 1 exactly when the true sum of the pre-operation values
exceeds 255 — to VF.  The register file after the instruction is exactly
the double update of the source, so Vx holds the wrapped sum whenever
x ≠ 0xF, VF always holds the carry flag, and no other register moves. -/
theorem claim_C6 (s : Chip8) (x y rng : Nat) (hx : x < 16) (hy : y < 16) :
    ∃ s', Chip8.execute s (0x8004 + 256 * x + 16 * y) rng = .ok s' ∧
      s'.registers =
        setIdx (setIdx s.registers x ((s.registers x + s.registers y) % 256)) 15
          (if 255 < s.registers x + s.registers y then 1 else 0) ∧
      (x ≠ 15 → s'.registers x = (s.registers x + s.registers y) % 256) ∧
      s'.registers 15 = (if 255 < s.registers x + s.registers y then 1 else 0) ∧
      (∀ i, i ≠ x → i ≠ 15 → s'.registers i = s.registers i) ∧
      s'.pc = s.pc ∧ s'.memory = s.memory ∧ s'.video = s.video ∧
      s'.index = s.index ∧ s'.sp = s.sp := by
  have h1 : (0x8004 + 256 * x + 16 * y) / 4096 % 16 = 8 := by omega
  have h2 : (0x8004 + 256 * x + 16 * y) / 256 % 16 = x := by omega
  have h3 : (0x8004 + 256 * x + 16 * y) / 16 % 16 = y := by omega
  have h4 : (0x8004 + 256 * x + 16 * y) % 16 = 4 := by omega
  have he : Chip8.execute s (0x8004 + 256 * x + 16 * y) rng =
      .ok { s with registers :=
        (setIdx (setIdx s.registers x ((s.registers x + s.registers y) % 256)) 15
          (if 255 < s.registers x + s.registers y then 1 else 0)) } := by
    rw [Chip8.execute.eq_def, h1, h2, h3, h4]
  refine ⟨_, he, rfl, ?_, ?_, ?_, rfl, rfl, rfl, rfl, rfl⟩
  · intro hx15
    simp [setIdx, hx15]
  · simp [setIdx]
  · intro i hix hi15
    simp [setIdx, hix, hi15]

/-- Witness for C6: the claim's own example Vx = 0xFF, Vy = 0x01 on
registers V0, V1. -/
theorem claim_C6_witness :
    ∃ s', Chip8.execute
        { Chip8.new with registers := setIdx (setIdx Chip8.new.registers 0 0xFF) 1 1 }
        (0x8004 + 256 * 0 + 16 * 1) 0 = .ok s' ∧
      s'.registers 0 = 0 ∧ s'.registers 15 = 1 := by
  obtain ⟨s', he, -, hvx, hvf, -⟩ :=
    claim_C6 { Chip8.new with registers := setIdx (setIdx Chip8.new.registers 0 0xFF) 1 1 }
      0 1 0 (by decide) (by decide)
  refine ⟨s', he, ?_, ?_⟩
  · rw [hvx (by decide)]; rfl
  · rw [hvf]; rfl

/-! ### Claim C9 (flag overwrites result when x = 0xF) -/

/-- Claim C9: when the destination register of 0x8xy4 / 0x8xy5 is VF
itself, the arithmetic result written to Vx is immediately overwritten by
the flag write, so afterwards register 0xF holds exactly the carry/borrow
flag (0 or 1) and the sum/difference is discarded: the whole register file
is a single point update of VF with the flag. -/
theorem claim_C9 (s : Chip8) (y rng : Nat) (hy : y < 16) :
    (∃ s', Chip8.execute s (0x8004 + 256 * 15 + 16 * y) rng = .ok s' ∧
      s'.registers =
        setIdx s.registers 15 (if 255 < s.registers 15 + s.registers y then 1 else 0) ∧
      s'.registers 15 = (if 255 < s.registers 15 + s.registers y then 1 else 0) ∧
      (s'.registers 15 = 0 ∨ s'.registers 15 = 1)) ∧
    (∃ s', Chip8.execute s (0x8005 + 256 * 15 + 16 * y) rng = .ok s' ∧
      s'.registers =
        setIdx s.registers 15 (if s.registers 15 < s.registers y then 0 else 1) ∧
      s'.registers 15 = (if s.registers 15 < s.registers y then 0 else 1) ∧
      (s'.registers 15 = 0 ∨ s'.registers 15 = 1)) := by
  constructor
  · have h1 : (0x8004 + 256 * 15 + 16 * y) / 4096 % 16 = 8 := by omega
    have h2 : (0x8004 + 256 * 15 + 16 * y) / 256 % 16 = 15 := by omega
    have h3 : (0x8004 + 256 * 15 + 16 * y) / 16 % 16 = y := by omega
    have h4 : (0x8004 + 256 * 15 + 16 * y) % 16 = 4 := by omega
    have he : Chip8.execute s (0x8004 + 256 * 15 + 16 * y) rng =
        .ok { s with registers :=
          (setIdx (setIdx s.registers 15 ((s.registers 15 + s.registers y) % 256)) 15
            (if 255 < s.registers 15 + s.registers y then 1 else 0)) } := by
      rw [Chip8.execute.eq_def, h1, h2, h3, h4]
    rw [setIdx_collapse] at he
    refine ⟨_, he, rfl, ?_, ?_⟩
    · simp [setIdx]
    · by_cases hc : 255 < s.registers 15 + s.registers y <;> simp [setIdx, hc]
  · have h1 : (0x8005 + 256 * 15 + 16 * y) / 4096 % 16 = 8 := by omega
    have h2 : (0x8005 + 256 * 15 + 16 * y) / 256 % 16 = 15 := by omega
    have h3 : (0x8005 + 256 * 15 + 16 * y) / 16 % 16 = y := by omega
    have h4 : (0x8005 + 256 * 15 + 16 * y) % 16 = 5 := by omega
    have he : Chip8.execute s (0x8005 + 256 * 15 + 16 * y) rng =
        .ok { s with registers :=
          (setIdx (setIdx s.registers 15 ((s.registers 15 + 256 - s.registers y) % 256)) 15
            (if s.registers 15 < s.registers y then 0 else 1)) } := by
      rw [Chip8.execute.eq_def, h1, h2, h3, h4]
    rw [setIdx_collapse] at he
    refine ⟨_, he, rfl, ?_, ?_⟩
    · simp [setIdx]
    · by_cases hc : s.registers 15 < s.registers y <;> simp [setIdx, hc]

/-- Witness for C9: VF = 0xFF plus V1 = 1 carries, so register 0xF ends as
the flag 1, not the wrapped sum 0. -/
theorem claim_C9_witness :
    ∃ s', Chip8.execute
        { Chip8.new with registers := setIdx (setIdx Chip8.new.registers 15 0xFF) 1 1 }
        (0x8004 + 256 * 15 + 16 * 1) 0 = .ok s' ∧ s'.registers 15 = 1 := by
  obtain ⟨⟨s', he, -, hvf, -⟩, -⟩ :=
    claim_C9 { Chip8.new with registers := setIdx (setIdx Chip8.new.registers 15 0xFF) 1 1 }
      1 0 (by decide)
  refine ⟨s', he, ?_⟩
  rw [hvf]; rfl

/-! ### Claim C2 (unknown opcode handling) -/

/-- Counterexample for C2: 0x5011 has the nibble pattern 0x5xyk with
k = 1 ≠ 0, so it is not in the specification's operation table, yet the
source's `(5, _, _, _)` match arm executes the listed skip-if-equal
operation on it (here V0 = V1 = 0, so it skips) instead of signalling a
fatal decode failure. -/
theorem claim_C2_counterexample :
    Chip8.execute Chip8.new 0x5011 0 = .ok { Chip8.new with pc := 0x202 } := by
  rfl

set_option maxHeartbeats 4000000 in
/-- Claim C2 as amended: an instruction word matching none of the dispatch
patterns of execute is rejected as a fatal decode failure that names the
offending instruction word (but not the program counter).  The dispatch
patterns are wider than the specification's table in one place: 0x5xyk
matches the skip-if-equal arm for every fourth nibble k, so such words are
executed as SE Vx, Vy rather than rejected. -/
theorem claim_C2_amended (s : Chip8) (op rng : Nat) (h : listedOp op = false) :
    Chip8.execute s op rng = .error (.unimplemented op) := by
  rw [listedOp.eq_def] at h
  rw [Chip8.execute.eq_def]
  have hb1 : op / 4096 % 16 < 16 := Nat.mod_lt _ (by norm_num)
  have hb2 : op / 256 % 16 < 16 := Nat.mod_lt _ (by norm_num)
  have hb3 : op / 16 % 16 < 16 := Nat.mod_lt _ (by norm_num)
  have hb4 : op % 16 < 16 := Nat.mod_lt _ (by norm_num)
  set n1 := op / 4096 % 16
  set n2 := op / 256 % 16
  set n3 := op / 16 % 16
  set n4 := op % 16
  clear_value n1 n2 n3 n4
  interval_cases n1 <;>
    first
      | rfl
      | exact Bool.noConfusion (show (true : Bool) = false from h)
      | (interval_cases n4 <;>
          first
            | rfl
            | exact Bool.noConfusion (show (true : Bool) = false from h))
      | (interval_cases n3 <;> interval_cases n4 <;>
          first
            | rfl
            | exact Bool.noConfusion (show (true : Bool) = false from h))
      | (interval_cases n2 <;> interval_cases n3 <;> interval_cases n4 <;>
          first
            | rfl
            | exact Bool.noConfusion (show (true : Bool) = false from h))

/-- Witness for C2 (amended): 0x9011 (SNE with nonzero fourth nibble)
matches no dispatch pattern and is rejected naming the word. -/
theorem claim_C2_amended_witness :
    listedOp 0x9011 = false ∧
    Chip8.execute Chip8.new 0x9011 0 = .error (.unimplemented 0x9011) :=
  ⟨by decide, claim_C2_amended Chip8.new 0x9011 0 (by decide)⟩

/-! ### Claim C7 (CALL then RET round-trip) -/

/-- Claim C7: with stack room available, a CALL fetched and executed at
address pc pushes pc + 2 (the address of the instruction following the
2-byte call), and a RET executed next pops it back: the program counter
returns to the instruction after the call and the stack pointer to its
pre-CALL value. -/
theorem claim_C7 (s : Chip8) (a lb rng : Nat) (ha : a < 16) (hlb : lb < 256)
    (hpc : s.pc + 1 < 4096) (hsp : s.sp < 16)
    (hhi : s.memory s.pc = 0x20 + a) (hlo : s.memory (s.pc + 1) = lb) :
    ∃ s1 s2, Chip8.tick s rng = .ok s1 ∧
      s1.pc = 256 * a + lb ∧
      s1.sp = s.sp + 1 ∧
      s1.stack s.sp = s.pc + 2 ∧
      Chip8.execute s1 0x00EE rng = .ok s2 ∧
      s2.pc = s.pc + 2 ∧
      s2.sp = s.sp := by
  have hop : Nat.lor (Nat.shiftLeft (s.memory s.pc) 8) (s.memory (s.pc + 1)) =
      0x2000 + 256 * a + lb := by
    rw [hhi, hlo, lor_byte _ _ hlb]
    ring
  have hft : Chip8.tick s rng =
      Chip8.execute { s with pc := s.pc + 2 } (0x2000 + 256 * a + lb) rng := by
    rw [Chip8.tick, Chip8.fetch, if_pos hpc, hop]
  have h1 : (0x2000 + 256 * a + lb) / 4096 % 16 = 2 := by omega
  have h4 : (0x2000 + 256 * a + lb) % 4096 = 256 * a + lb := by omega
  have hcall : Chip8.execute { s with pc := s.pc + 2 } (0x2000 + 256 * a + lb) rng =
      .ok { s with stack := setIdx s.stack s.sp (s.pc + 2), sp := s.sp + 1,
                   pc := (0x2000 + 256 * a + lb) % 4096 } := by
    rw [Chip8.execute.eq_def, h1]
    have hsplit : ∀ s' : Chip8, s'.sp = s.sp →
        (if s'.sp < 16 then
            Except.ok { s' with stack := setIdx s'.stack s'.sp s'.pc, sp := s'.sp + 1,
                                pc := (0x2000 + 256 * a + lb) % 4096 }
          else Except.error (Err.oobWrite s'.sp)) =
          (Except.ok { s' with stack := setIdx s'.stack s'.sp s'.pc, sp := s'.sp + 1,
                               pc := (0x2000 + 256 * a + lb) % 4096 } : Except Err Chip8) := by
      intro s' hs'
      rw [if_pos (hs' ▸ hsp)]
    exact hsplit { s with pc := s.pc + 2 } rfl
  set s1 : Chip8 := { s with stack := setIdx s.stack s.sp (s.pc + 2), sp := s.sp + 1,
                             pc := (0x2000 + 256 * a + lb) % 4096 } with hs1
  have hret : Chip8.execute s1 0x00EE rng =
      .ok { s1 with sp := s1.sp - 1, pc := s1.stack (s1.sp - 1) } := by
    rw [Chip8.execute.eq_def]
    show (if s1.sp = 0 then Except.error Err.stackUnderflow
      else if s1.sp - 1 < 16 then
        Except.ok { s1 with sp := s1.sp - 1, pc := s1.stack (s1.sp - 1) }
      else Except.error (Err.oobRead (s1.sp - 1))) = _
    have hz : ¬(s1.sp = 0) := by simp [hs1]
    have hlt : s1.sp - 1 < 16 := by simp [hs1]; omega
    rw [if_neg hz, if_pos hlt]
  refine ⟨s1, _, by rw [hft, hcall], by simp [hs1]; omega, by simp [hs1],
    by simp [hs1, setIdx_self], hret, ?_, ?_⟩
  · show s1.stack (s1.sp - 1) = s.pc + 2
    simp [hs1, setIdx_self]
  · show s1.sp - 1 = s.sp
    simp [hs1]

/-- A machine with the call instruction 0x2345 stored at the initial
program counter 0x200. -/
def c7State : Chip8 :=
  { Chip8.new with memory := setIdx (setIdx Chip8.new.memory 0x200 0x23) 0x201 0x45 }

/-- Witness for C7: CALL 0x345 fetched at 0x200 followed by RET returns the
program counter to 0x202 and the stack pointer to 0. -/
theorem claim_C7_witness :
    ∃ s1 s2, Chip8.tick c7State 0 = .ok s1 ∧
      s1.pc = 256 * 3 + 0x45 ∧
      s1.sp = c7State.sp + 1 ∧
      s1.stack c7State.sp = c7State.pc + 2 ∧
      Chip8.execute s1 0x00EE 0 = .ok s2 ∧
      s2.pc = c7State.pc + 2 ∧
      s2.sp = c7State.sp :=
  claim_C7 c7State 3 0x45 0 (by decide) (by decide) (by decide) (by decide)
    (by decide) (by decide)

/-! ### Draw-sprite characterization (claims C5 and C10) -/

/-- The column loop toggles exactly the pixels of the set sprite bits of its
byte (each column of 0..8 maps to a distinct pixel because x wraps modulo
64 on distinct columns below 8), and accumulates a collision flag for the
toggled pixels that were set before the row was drawn. -/
theorem drawCols_spec (cs : List Nat) : ∀ (v : Nat → Bool) (fl : Bool) (pixels xc yr : Nat),
    cs.Nodup → (∀ c ∈ cs, c < 8) →
    (∀ q, (drawCols v fl pixels xc yr cs).1 q =
      xor (v q) (cs.any fun c =>
        pixels.testBit (7 - c) && (q == (xc + c) % 64 + 64 * (yr % 32)))) ∧
    (drawCols v fl pixels xc yr cs).2 =
      (fl || cs.any fun c =>
        pixels.testBit (7 - c) && v ((xc + c) % 64 + 64 * (yr % 32))) := by
  induction cs with
  | nil =>
    intro v fl pixels xc yr _ _
    exact ⟨fun q => by simp [drawCols], by simp [drawCols]⟩
  | cons c cs ih =>
    intro v fl pixels xc yr hnd hb
    have hc8 : c < 8 := hb c (List.mem_cons_self c cs)
    obtain ⟨hcn, hnd'⟩ := List.nodup_cons.mp hnd
    have hb' : ∀ a ∈ cs, a < 8 := fun a ha => hb a (List.mem_cons_of_mem c ha)
    by_cases ht : Nat.land pixels (128 >>> c) ≠ 0
    · have htb : pixels.testBit (7 - c) = true := (land_bit pixels c hc8).mp ht
      have hstep : drawCols v fl pixels xc yr (c :: cs) =
          drawCols
            (setIdx v ((xc + c) % 64 + 64 * (yr % 32))
              (!(v ((xc + c) % 64 + 64 * (yr % 32)))))
            (fl || v ((xc + c) % 64 + 64 * (yr % 32))) pixels xc yr cs := by
        simp only [drawCols, if_pos ht]
      obtain ⟨ih1, ih2⟩ := ih
        (setIdx v ((xc + c) % 64 + 64 * (yr % 32))
          (!(v ((xc + c) % 64 + 64 * (yr % 32)))))
        (fl || v ((xc + c) % 64 + 64 * (yr % 32))) pixels xc yr hnd' hb'
      have hne : ∀ a ∈ cs,
          (xc + c) % 64 + 64 * (yr % 32) ≠ (xc + a) % 64 + 64 * (yr % 32) := by
        intro a ha he
        have ha8 : a < 8 := hb' a ha
        have : c = a := by omega
        exact hcn (this ▸ ha)
      constructor
      · intro q
        rw [hstep, ih1 q]
        by_cases hq : q = (xc + c) % 64 + 64 * (yr % 32)
        · subst hq
          have hta : (cs.any fun a => pixels.testBit (7 - a) &&
              ((xc + c) % 64 + 64 * (yr % 32) == (xc + a) % 64 + 64 * (yr % 32))) = false := by
            rw [List.any_eq_false]
            intro a ha
            simp [hne a ha]
          rw [hta, setIdx_self]
          simp [List.any_cons, htb]
        · rw [setIdx_ne _ _ _ _ hq]
          have hqb : (q == (xc + c) % 64 + 64 * (yr % 32)) = false := by
            simp [hq]
          simp [List.any_cons, hqb]
      · rw [hstep, ih2]
        have hcg : (cs.any fun a => pixels.testBit (7 - a) &&
              (setIdx v ((xc + c) % 64 + 64 * (yr % 32))
                (!(v ((xc + c) % 64 + 64 * (yr % 32)))))
                ((xc + a) % 64 + 64 * (yr % 32))) =
            (cs.any fun a => pixels.testBit (7 - a) &&
              v ((xc + a) % 64 + 64 * (yr % 32))) := by
          apply any_congr
          intro a ha
          rw [setIdx_ne _ _ _ _ (Ne.symm (hne a ha))]
        rw [hcg]
        simp [List.any_cons, htb, Bool.or_assoc]
    · have htb : pixels.testBit (7 - c) = false := by
        cases hx : pixels.testBit (7 - c) with
        | false => rfl
        | true => exact absurd ((land_bit pixels c hc8).mpr hx) ht
      have hstep : drawCols v fl pixels xc yr (c :: cs) = drawCols v fl pixels xc yr cs := by
        simp only [drawCols, if_neg ht]
      obtain ⟨ih1, ih2⟩ := ih v fl pixels xc yr hnd' hb'
      constructor
      · intro q
        rw [hstep, ih1 q]
        simp [List.any_cons, htb]
      · rw [hstep, ih2]
        simp [List.any_cons, htb]

/-- The row loop succeeds whenever every sprite byte address is inside the
4096-byte memory, and then the framebuffer update is the per-pixel XOR of
the sprite-bit predicate (rows below 32 map to distinct y lines, so each
pixel is toggled at most once), with the collision flag set exactly when
some set bit lands on an already-set pixel. -/
theorem drawRows_spec (rs : List Nat) : ∀ (v : Nat → Bool) (fl : Bool) (mem : Nat → Nat)
    (i xc yc : Nat),
    rs.Nodup → (∀ r ∈ rs, r < 32 ∧ i + r < 4096) →
    ∃ v2 fl2, drawRows v fl mem i xc yc rs = .ok (v2, fl2) ∧
      (∀ q, v2 q = xor (v q) (rs.any fun r => (List.range 8).any fun c =>
        (mem (i + r)).testBit (7 - c) && (q == pixIdx xc yc r c))) ∧
      fl2 = (fl || rs.any fun r => (List.range 8).any fun c =>
        (mem (i + r)).testBit (7 - c) && v (pixIdx xc yc r c)) := by
  induction rs with
  | nil =>
    intro v fl mem i xc yc _ _
    exact ⟨v, fl, rfl, fun q => by simp, by simp⟩
  | cons r rs ih =>
    intro v fl mem i xc yc hnd hb
    obtain ⟨hrn, hnd'⟩ := List.nodup_cons.mp hnd
    obtain ⟨hr32, hrb⟩ := hb r (List.mem_cons_self r rs)
    have hb' : ∀ a ∈ rs, a < 32 ∧ i + a < 4096 :=
      fun a ha => hb a (List.mem_cons_of_mem r ha)
    obtain ⟨c1, c2⟩ := drawCols_spec (List.range 8) v fl (mem (i + r)) xc (yc + r)
      (List.nodup_range 8) (fun c hc => List.mem_range.mp hc)
    obtain ⟨v2, fl2, he, hv2, hfl2⟩ :=
      ih (drawCols v fl (mem (i + r)) xc (yc + r) (List.range 8)).1
        (drawCols v fl (mem (i + r)) xc (yc + r) (List.range 8)).2 mem i xc yc hnd' hb'
    have hyne : ∀ a ∈ rs, ∀ c' c : Nat, c' < 8 → c < 8 →
        pixIdx xc yc a c' ≠ pixIdx xc yc r c := by
      intro a ha c' c hc' hc he2
      obtain ⟨ha32, -⟩ := hb' a ha
      have har : a ≠ r := fun h => hrn (h ▸ ha)
      simp only [pixIdx] at he2
      omega
    refine ⟨v2, fl2, ?_, ?_, ?_⟩
    · show drawRows v fl mem i xc yc (r :: rs) = .ok (v2, fl2)
      simp only [drawRows, if_pos hrb]
      exact he
    · intro q
      rw [hv2 q, c1 q]
      have hdisj : ((List.range 8).any fun c =>
            (mem (i + r)).testBit (7 - c) && (q == (xc + c) % 64 + 64 * ((yc + r) % 32))) = true →
          (rs.any fun a => (List.range 8).any fun c =>
            (mem (i + a)).testBit (7 - c) && (q == pixIdx xc yc a c)) = true → False := by
        intro h1 h2
        obtain ⟨c, hcmem, hcb⟩ := List.any_eq_true.mp h1
        obtain ⟨a, hamem, hinner⟩ := List.any_eq_true.mp h2
        obtain ⟨c', hcmem', hcb'⟩ := List.any_eq_true.mp hinner
        simp only [Bool.and_eq_true, beq_iff_eq] at hcb hcb'
        obtain ⟨-, hq1'⟩ := hcb
        obtain ⟨-, hq2'⟩ := hcb'
        have hpe : pixIdx xc yc a c' = pixIdx xc yc r c := by
          rw [← hq2', hq1']; rfl
        exact hyne a hamem c' c (List.mem_range.mp hcmem') (List.mem_range.mp hcmem) hpe
      have hrowform : ((List.range 8).any fun c =>
            (mem (i + r)).testBit (7 - c) && (q == (xc + c) % 64 + 64 * ((yc + r) % 32))) =
          ((List.range 8).any fun c =>
            (mem (i + r)).testBit (7 - c) && (q == pixIdx xc yc r c)) := rfl
      rw [hrowform] at hdisj ⊢
      simp only [List.any_cons]
      cases hA : ((List.range 8).any fun c =>
          (mem (i + r)).testBit (7 - c) && (q == pixIdx xc yc r c)) with
      | false => simp [hA]
      | true =>
        cases hB : (rs.any fun a => (List.range 8).any fun c =>
            (mem (i + a)).testBit (7 - c) && (q == pixIdx xc yc a c)) with
        | false => simp [hA, hB]
        | true => exact absurd hB (fun h => hdisj hA h)
    · rw [hfl2, c2]
      have hcg : (rs.any fun a => (List.range 8).any fun c =>
            (mem (i + a)).testBit (7 - c) &&
              (drawCols v fl (mem (i + r)) xc (yc + r) (List.range 8)).1 (pixIdx xc yc a c)) =
          (rs.any fun a => (List.range 8).any fun c =>
            (mem (i + a)).testBit (7 - c) && v (pixIdx xc yc a c)) := by
        apply any_congr
        intro a ha
        apply any_congr
        intro c' hc'
        have hvv : (drawCols v fl (mem (i + r)) xc (yc + r) (List.range 8)).1
            (pixIdx xc yc a c') = v (pixIdx xc yc a c') := by
          rw [c1]
          have hz : ((List.range 8).any fun c =>
              (mem (i + r)).testBit (7 - c) &&
                (pixIdx xc yc a c' == (xc + c) % 64 + 64 * ((yc + r) % 32))) = false := by
            rw [List.any_eq_false]
            intro c hc
            have : pixIdx xc yc a c' ≠ (xc + c) % 64 + 64 * ((yc + r) % 32) :=
              hyne a ha c' c (List.mem_range.mp hc') (List.mem_range.mp hc)
            simp [this]
          rw [hz]
          simp
        rw [hvv]
      rw [hcg]
      simp only [List.any_cons, Bool.or_assoc]
      rfl

/-! ### Claim C5 (draw sprite 0xDxyn) -/

/-- Reduction of execute on a 0xDxyn instruction word to the row loop. -/
theorem execute_draw (s : Chip8) (x y n rng : Nat) (hx : x < 16) (hy : y < 16)
    (hn : n < 16) :
    Chip8.execute s (0xD000 + 256 * x + 16 * y + n) rng =
      match drawRows s.video false s.memory s.index (s.registers x) (s.registers y)
          (List.range n) with
      | .ok p =>
        .ok { s with video := p.1,
                     registers := (setIdx s.registers 15 (if p.2 then 1 else 0)) }
      | .error e => .error e := by
  have h1 : (0xD000 + 256 * x + 16 * y + n) / 4096 % 16 = 13 := by omega
  have h2 : (0xD000 + 256 * x + 16 * y + n) / 256 % 16 = x := by omega
  have h3 : (0xD000 + 256 * x + 16 * y + n) / 16 % 16 = y := by omega
  have h4 : (0xD000 + 256 * x + 16 * y + n) % 16 = n := by omega
  rw [Chip8.execute.eq_def, h1, h2, h3, h4]

/-- Claim C5: with the n sprite bytes in bounds, 0xDxyn XOR-toggles, for
each set sprite bit (most-significant bit first within each byte), the
framebuffer pixel at ((Vx + column) mod 64, (Vy + row) mod 32) — each axis
wrapping independently per pixel — and afterwards VF = 1 exactly when some
toggled pixel was set before the draw (set-to-unset transition); VF is
written 0 otherwise, other registers and the rest of the state are
untouched. -/
theorem claim_C5 (s : Chip8) (x y n rng : Nat) (hx : x < 16) (hy : y < 16) (hn : n < 16)
    (hbound : s.index + n ≤ 4096) :
    ∃ s', Chip8.execute s (0xD000 + 256 * x + 16 * y + n) rng = .ok s' ∧
      (∀ q, s'.video q = xor (s.video q)
        (hitB s.memory s.index (s.registers x) (s.registers y) n q)) ∧
      (∀ q, hitB s.memory s.index (s.registers x) (s.registers y) n q = true ↔
        ∃ r, r < n ∧ ∃ c, c < 8 ∧ (s.memory (s.index + r)).testBit (7 - c) = true ∧
          q = pixIdx (s.registers x) (s.registers y) r c) ∧
      (s'.registers 15 = 1 ↔ ∃ r, r < n ∧ ∃ c, c < 8 ∧
        (s.memory (s.index + r)).testBit (7 - c) = true ∧
        s.video (pixIdx (s.registers x) (s.registers y) r c) = true) ∧
      (s'.registers 15 = 0 ∨ s'.registers 15 = 1) ∧
      (∀ i, i ≠ 15 → s'.registers i = s.registers i) ∧
      s'.pc = s.pc ∧ s'.memory = s.memory ∧ s'.index = s.index ∧ s'.sp = s.sp := by
  obtain ⟨v2, fl2, he, hv2, hfl2⟩ := drawRows_spec (List.range n) s.video false s.memory
    s.index (s.registers x) (s.registers y) (List.nodup_range n)
    (fun r hr => ⟨by have := List.mem_range.mp hr; omega, by have := List.mem_range.mp hr; omega⟩)
  have hex0 := execute_draw s x y n rng hx hy hn
  rw [he] at hex0
  have hex : Chip8.execute s (0xD000 + 256 * x + 16 * y + n) rng =
      .ok { s with video := v2,
                   registers := (setIdx s.registers 15 (if fl2 then 1 else 0)) } := hex0
  have hflform : fl2 = collB s.memory s.index (s.registers x) (s.registers y) n s.video := by
    rw [hfl2]
    simp only [Bool.false_or]
    rfl
  have hcoll : collB s.memory s.index (s.registers x) (s.registers y) n s.video = true ↔
      ∃ r, r < n ∧ ∃ c, c < 8 ∧
        (s.memory (s.index + r)).testBit (7 - c) = true ∧
        s.video (pixIdx (s.registers x) (s.registers y) r c) = true := by
    simp only [collB, List.any_eq_true, List.mem_range, Bool.and_eq_true]
  refine ⟨_, hex, ?_, ?_, ?_, ?_, ?_, rfl, rfl, rfl, rfl⟩
  · intro q
    show v2 q = _
    rw [hv2 q]
    rfl
  · intro q
    simp only [hitB, List.any_eq_true, List.mem_range, Bool.and_eq_true, beq_iff_eq]
  · show setIdx s.registers 15 (if fl2 then 1 else 0) 15 = 1 ↔ _
    rw [setIdx_self, hflform]
    cases hc : collB s.memory s.index (s.registers x) (s.registers y) n s.video with
    | false =>
      simp only [if_neg (by simp : ¬(false = true))]
      constructor
      · intro h; exact absurd h (by norm_num)
      · intro h
        have h2 := hcoll.mpr h
        rw [hc] at h2
        exact absurd h2 (by simp)
    | true =>
      simp only [if_pos rfl]
      exact ⟨fun _ => hcoll.mp hc, fun _ => rfl⟩
  · show setIdx s.registers 15 (if fl2 then 1 else 0) 15 = 0 ∨
      setIdx s.registers 15 (if fl2 then 1 else 0) 15 = 1
    rw [setIdx_self]
    cases fl2 <;> simp
  · intro i hi
    exact setIdx_ne _ _ _ _ hi

/-- Witness for C5: drawing a one-row sprite from address 0 on the fresh
machine. -/
theorem claim_C5_witness :
    ∃ s', Chip8.execute Chip8.new 0xD001 0 = .ok s' ∧
      (s'.registers 15 = 0 ∨ s'.registers 15 = 1) := by
  obtain ⟨s', he, -, -, -, h01, -⟩ :=
    claim_C5 Chip8.new 0 0 1 0 (by decide) (by decide) (by decide) (by decide)
  exact ⟨s', he, h01⟩

/-! ### Claim C10 (draw sprite memory accesses) -/

/-- Claim C10: under the precondition index + n ≤ 4096 every sprite byte
read of 0xDxyn is in bounds and the error branch of the embedding is
unreachable (execute succeeds); the source performs no bounds check of its
own, so the precondition is genuine: with index ≥ 4096 and n > 0 the very
first row read faults. -/
theorem claim_C10 (s : Chip8) (x y n rng : Nat) (hx : x < 16) (hy : y < 16) (hn : n < 16) :
    (s.index + n ≤ 4096 →
      ∃ s', Chip8.execute s (0xD000 + 256 * x + 16 * y + n) rng = .ok s') ∧
    (4096 ≤ s.index → 0 < n →
      ∃ e, Chip8.execute s (0xD000 + 256 * x + 16 * y + n) rng = .error e) := by
  constructor
  · intro hbound
    obtain ⟨v2, fl2, he, -, -⟩ := drawRows_spec (List.range n) s.video false s.memory
      s.index (s.registers x) (s.registers y) (List.nodup_range n)
      (fun r hr => ⟨by have := List.mem_range.mp hr; omega,
                    by have := List.mem_range.mp hr; omega⟩)
    rw [execute_draw s x y n rng hx hy hn, he]
    exact ⟨_, rfl⟩
  · intro hidx hpos
    obtain ⟨m, rfl⟩ : ∃ m, n = m + 1 := ⟨n - 1, by omega⟩
    have hfail : drawRows s.video false s.memory s.index (s.registers x) (s.registers y)
        (List.range (m + 1)) = .error (.oobRead (s.index + 0)) := by
      rw [List.range_succ_eq_map]
      simp only [drawRows]
      rw [if_neg (by omega)]
    rw [execute_draw s x y (m + 1) rng hx hy hn, hfail]
    exact ⟨_, rfl⟩

/-- A machine whose index register points one past the end of memory. -/
def c10State : Chip8 :=
  { Chip8.new with index := 4096 }

/-- Witness for C10: on the fresh machine a one-row draw from index 0
succeeds, and with index = 4096 the same instruction faults. -/
theorem claim_C10_witness :
    (∃ s', Chip8.execute Chip8.new 0xD001 0 = .ok s') ∧
    (∃ e, Chip8.execute c10State 0xD001 0 = .error e) :=
  ⟨(claim_C10 Chip8.new 0 0 1 0 (by decide) (by decide) (by decide)).1 (by decide),
   (claim_C10 c10State 0 0 1 0 (by decide) (by decide) (by decide)).2 (by decide) (by decide)⟩

/-! ### Claim C8 (block for keypress 0xFx0A) -/

theorem firstKeyAux_none (kp : Nat → Bool) : ∀ (fuel i : Nat),
    (∀ j, i ≤ j → j < i + fuel → kp j = false) → firstKeyAux kp i fuel = none := by
  intro fuel
  induction fuel with
  | zero => intro i _; rfl
  | succ m ih =>
    intro i h
    have hi : kp i = false := h i (Nat.le_refl i) (by omega)
    show (if kp i then some i else firstKeyAux kp (i + 1) m) = none
    rw [hi, if_neg Bool.false_ne_true]
    exact ih (i + 1) (fun j h1 h2 => h j (by omega) (by omega))

theorem firstKeyAux_some (kp : Nat → Bool) : ∀ (fuel i k : Nat),
    i ≤ k → k < i + fuel → kp k = true → (∀ j, i ≤ j → j < k → kp j = false) →
    firstKeyAux kp i fuel = some k := by
  intro fuel
  induction fuel with
  | zero => intro i k h1 h2 _ _; omega
  | succ m ih =>
    intro i k h1 h2 hk hbelow
    by_cases hik : k = i
    · subst hik
      show (if kp k then some k else firstKeyAux kp (k + 1) m) = some k
      rw [hk, if_pos rfl]
    · have hki : kp i = false := hbelow i (Nat.le_refl i) (by omega)
      show (if kp i then some i else firstKeyAux kp (i + 1) m) = some k
      rw [hki, if_neg Bool.false_ne_true]
      exact ih (i + 1) k (by omega) (by omega) hk (fun j hj1 hj2 => hbelow j (by omega) hj2)

/-- Reduction of execute on a 0xFx0A instruction word to the key search. -/
theorem execute_keywait (s : Chip8) (x rng : Nat) (hx : x < 16) :
    Chip8.execute s (0xF00A + 256 * x) rng =
      match firstKey s.keypad with
      | some i => .ok { s with registers := (setIdx s.registers x i) }
      | none =>
        if 2 ≤ s.pc then .ok { s with pc := s.pc - 2 } else .error .pcUnderflow := by
  have h1 : (0xF00A + 256 * x) / 4096 % 16 = 15 := by omega
  have h2 : (0xF00A + 256 * x) / 256 % 16 = x := by omega
  have h3 : (0xF00A + 256 * x) / 16 % 16 = 0 := by omega
  have h4 : (0xF00A + 256 * x) % 16 = 10 := by omega
  rw [Chip8.execute.eq_def, h1, h2, h3, h4]

/-- Claim C8: on a state whose current instruction is 0xFx0A, a full
fetch-execute cycle leaves the program counter unchanged when no keypad key
is pressed (the instruction will re-execute), and when at least one key is
pressed it stores the lowest-indexed pressed key in Vx and advances the
program counter past the instruction (by 2). -/
theorem claim_C8 (s : Chip8) (x rng : Nat) (hx : x < 16) (hpc : s.pc + 1 < 4096)
    (hhi : s.memory s.pc = 0xF0 + x) (hlo : s.memory (s.pc + 1) = 0x0A) :
    ((∀ k, k < 16 → s.keypad k = false) →
      ∃ s', Chip8.tick s rng = .ok s' ∧ s'.pc = s.pc ∧ s'.registers = s.registers ∧
        s'.video = s.video ∧ s'.memory = s.memory ∧ s'.sp = s.sp ∧
        s'.keypad = s.keypad) ∧
    (∀ k, k < 16 → s.keypad k = true → (∀ j, j < k → s.keypad j = false) →
      ∃ s', Chip8.tick s rng = .ok s' ∧
        s'.registers = setIdx s.registers x k ∧
        s'.registers x = k ∧ s'.pc = s.pc + 2 ∧
        (∀ i, i ≠ x → s'.registers i = s.registers i)) := by
  have hop : Nat.lor (Nat.shiftLeft (s.memory s.pc) 8) (s.memory (s.pc + 1)) =
      0xF00A + 256 * x := by
    rw [hhi, hlo, lor_byte _ _ (by norm_num)]
    ring
  have hft : Chip8.tick s rng =
      Chip8.execute { s with pc := s.pc + 2 } (0xF00A + 256 * x) rng := by
    rw [Chip8.tick, Chip8.fetch, if_pos hpc, hop]
  constructor
  · intro hnone
    have hfk : firstKey s.keypad = none :=
      firstKeyAux_none s.keypad 16 0 (fun j _ h2 => hnone j (by omega))
    have h2 : Chip8.tick s rng =
        (if 2 ≤ s.pc + 2 then Except.ok { s with pc := s.pc + 2 - 2 }
         else Except.error Err.pcUnderflow) := by
      rw [hft]
      have hstep := execute_keywait { s with pc := s.pc + 2 } x rng hx
      rw [show ({ s with pc := s.pc + 2 } : Chip8).keypad = s.keypad from rfl] at hstep
      rw [hfk] at hstep
      exact hstep
    rw [h2, if_pos (by omega)]
    refine ⟨_, rfl, ?_, rfl, rfl, rfl, rfl, rfl⟩
    show s.pc + 2 - 2 = s.pc
    omega
  · intro k hk hkp hbelow
    have hfk : firstKey s.keypad = some k :=
      firstKeyAux_some s.keypad 16 0 k (Nat.zero_le k) (by omega) hkp
        (fun j _ hj => hbelow j hj)
    have h2 : Chip8.tick s rng =
        .ok { s with pc := s.pc + 2, registers := (setIdx s.registers x k) } := by
      rw [hft]
      have hstep := execute_keywait { s with pc := s.pc + 2 } x rng hx
      rw [show ({ s with pc := s.pc + 2 } : Chip8).keypad = s.keypad from rfl] at hstep
      rw [hfk] at hstep
      exact hstep
    refine ⟨_, h2, rfl, setIdx_self _ _ _, rfl, ?_⟩
    intro i hi
    exact setIdx_ne _ _ _ _ hi

/-- A machine with the key-wait instruction 0xF30A stored at the initial
program counter and key 5 (and key 9) pressed. -/
def c8State : Chip8 :=
  { Chip8.new with
      memory := setIdx (setIdx Chip8.new.memory 0x200 0xF3) 0x201 0x0A,
      keypad := setIdx (setIdx Chip8.new.keypad 5 true) 9 true }

/-- A machine with the key-wait instruction 0xF30A stored at the initial
program counter and no key pressed. -/
def c8StateIdle : Chip8 :=
  { Chip8.new with
      memory := setIdx (setIdx Chip8.new.memory 0x200 0xF3) 0x201 0x0A }

/-- Witness for C8: with no key pressed the cycle leaves pc at 0x200; with
keys 5 and 9 pressed, V3 receives 5 (the lowest) and pc advances to 0x202. -/
theorem claim_C8_witness :
    (∃ s', Chip8.tick c8StateIdle 0 = .ok s' ∧ s'.pc = c8StateIdle.pc ∧
      s'.registers = c8StateIdle.registers ∧ s'.video = c8StateIdle.video ∧
      s'.memory = c8StateIdle.memory ∧ s'.sp = c8StateIdle.sp ∧
      s'.keypad = c8StateIdle.keypad) ∧
    (∃ s', Chip8.tick c8State 0 = .ok s' ∧
      s'.registers = setIdx c8State.registers 3 5 ∧
      s'.registers 3 = 5 ∧ s'.pc = c8State.pc + 2 ∧
      (∀ i, i ≠ 3 → s'.registers i = c8State.registers i)) := by
  constructor
  · exact (claim_C8 c8StateIdle 3 0 (by decide) (by decide) (by decide) (by decide)).1
      (fun k _ => rfl)
  · exact (claim_C8 c8State 3 0 (by decide) (by decide) (by decide) (by decide)).2
      5 (by decide) (by decide) (fun j hj => by interval_cases j <;> rfl)
